import Mathlib

/-!
# Engagement Timer — verification development

A shallow embedding of `src/engagement-timer.js` (the LunaMetrics engagement
timer, v2.1.1).  The engine measures "engaged" wall-clock time and emits
`interval` events at configured marks.  The embedding models:

* the mark utilities `cleanMarks`, `GCD`, `setGCD`;
* the engine state (`_trackedTime`, `_lastTick`, `_tickElapsed`, `_running`,
  `_each`, `_every` with its `initialValues` annotation, `_cache`, bounds,
  the armed `Interval` and the pending idle timeout);
* the operations `EngagementTimer(opts)` (construction), `_tick`,
  `_checkMarks`, `_checkMark`, `start`, `pause`, `reset`, `destroy`, and the
  idle-deadline firing from `_resetIdleTimeout`.

Conventions of the embedding:

* Wall-clock times and durations are naturals (milliseconds).  The spec's
  clock collaborator is monotone non-decreasing, so the JS subtractions
  `d - this._lastTick` never go negative on the runs of interest; theorems
  that depend on it carry explicit monotonicity hypotheses.
* Mark values are naturals (seconds).  `cleanMarks` in the source keeps any
  truthy `Number`, so it also admits negative numbers; every claim below
  concerns positive integer marks, which `Nat` covers.
* The DOM collaborators (context lookup, engagement-event listeners, the
  page-visibility source) are external per the spec's scope and are not
  modelled; construction assumes the context resolves.
* Deferred execution (`setTimeout`) is modelled by letting an operation
  sequence choose when scheduler ticks and the idle deadline fire; the
  liveness guard of `Interval` (`if (this._cleared) return`) is the guard of
  `schedTick`, and a cancelled idle timeout (`idleTimer = none`) cannot fire.
* Fallible JS paths (a thrown `Error` at construction, the `TypeError` from
  touching `initialValues` on an array that no longer carries it) are
  `Except String`.  The one non-throwing failure — `pause()` before any
  `start()` on an engine without `startTime`, where the source computes
  `d - undefined = NaN` and permanently poisons `_trackedTime` — has no
  `Nat` counterpart; the model truncates such runs with a distinguished
  error rather than fabricating a finite value, so no theorem covers the
  poisoned executions.
-/

namespace EngagementTimer

/-- Events the engine emits (`interval`, `start`, `pause`, `reset`, `idle`).
`interval` carries the due mark's second value; the lifecycle events carry
the `+new Date` timestamp the source puts in `data.timestamp`. -/
inductive Event where
  | interval (time : Nat)
  | start (ts : Nat)
  | pause (ts : Nat)
  | reset (ts : Nat)
  | idle (ts : Nat)
deriving DecidableEq, Repr

/-- The recognized construction options (`opts`).  `none` models an absent
(JS `undefined`) option.  `context` and `idleOnVisibilityChange` are DOM
collaborators outside the model's scope. -/
structure Opts where
  each : Option (List Nat) := none
  every : Option (List Nat) := none
  idleAfter : Option Nat := none
  engagementEvents : Option (List String) := none
  min : Option Nat := none
  max : Option Nat := none
  startTime : Option Nat := none
deriving DecidableEq, Repr

/-- Engine state.  Field names follow the source's underscore fields.

* `lastTick = none` models `_lastTick === undefined` (no `startTime` and not
  yet started).
* `eachInitAnn` / `everyInitAnn` model the `initialValues` property the
  constructor attaches to the `_each` / `_every` arrays; `reset()` replaces
  both arrays with plain copies, so the annotation is lost (`none`).
* `intervalCleared` is the `_cleared` flag of the armed `Interval`
  (`true` also when no `Interval` exists yet).
* `firstTick` records that the next scheduler tick is the first one of the
  `Interval` armed by `_startTimer`, whose wrapper zeroes `_tickElapsed`.
* `idleTimer = some t` is a pending idle deadline due at wall-clock `t`
  (the handle `_idleTimer`); `none` means cancelled or absent.
* `maxB = none` models `_max = Infinity`; `minInterval = none` models the
  `NaN` produced by `1000 * setGCD([])` when both mark lists are empty. -/
structure Engine where
  trackedTime : Nat
  lastTick : Option Nat
  tickElapsed : Nat
  running : Bool
  intervalCleared : Bool
  firstTick : Bool
  idleTimer : Option Nat
  idleAfterMs : Option Nat
  minB : Nat
  maxB : Option Nat
  minInterval : Option Nat
  each : List Nat
  eachInitAnn : Option (List Nat)
  everyMemo : List Nat
  everyInitAnn : Option (List Nat)
  cache : List Nat
deriving DecidableEq, Repr

/-- `ascendingSort` comparator: the source's `.sort(ascendingSort)` sorts
ascending; modelled as a stable insertion sort by `≤`. -/
def jsSort (l : List Nat) : List Nat := l.insertionSort (· ≤ ·)

/-- `cleanMarks`: keep truthy numbers (nonzero, over `Nat`), then sort
ascending. -/
def cleanMarks (arr : List Nat) : List Nat :=
  jsSort (arr.filter (· ≠ 0))

/-- The `while (true)` loop of `GCD` after the absolute values and the
`b > a` swap: `if b === 0 return a; a %= b; if a === 0 return b; b %= a`. -/
def GCDgo (a b : Nat) : Nat :=
  if hb : b = 0 then a
  else
    let a' := a % b
    if ha : a' = 0 then b
    else GCDgo a' (b % a')
termination_by b
decreasing_by
  exact Nat.lt_trans (Nat.mod_lt _ (Nat.pos_of_ne_zero ha))
    (Nat.mod_lt _ (Nat.pos_of_ne_zero hb))

/-- `GCD(a, b)`: Euclid; over `Nat` the `Math.abs` calls are identities, and
`if (b > a) return GCD(b, a)` is the single swap before the loop. -/
def GCD (a b : Nat) : Nat :=
  if a < b then GCDgo b a else GCDgo a b

/-- `setGCD(set)`: a singleton returns its sole element; otherwise
`set.pop()` takes the last element and the rest is reduced with `GCD`.
On the empty list the source's `set.pop()` is `undefined` and the reduce
returns it unchanged; `none` models that. -/
def setGCD (set : List Nat) : Option Nat :=
  if set.length = 1 then set.head?
  else
    match set.getLast? with
    | none => none
    | some last => some (set.dropLast.foldl GCD last)

/-- Truthiness of an optional JS number (`0` is falsy). -/
def truthyNum (o : Option Nat) : Bool :=
  match o with
  | none => false
  | some n => n != 0

/-- `EngagementTimer(opts)` at wall-clock `now` (`+new Date`).

Faithful points: empty arrays are truthy, so only *absent* `each` and
`every` trigger the first error; `_max = opts.max * 1000 || Infinity` makes
`max: 0` also `Infinity`; `_every` holds the per-period watermarks
`opts.min ? (opts.min % n) + n : 0` computed over the *raw* `opts.every`
list, while `initialValues` is the cleaned (filtered, sorted) list;
`_idleAfter = opts.idleAfter * 1000 + 1 || null`; with a truthy `startTime`
the already-elapsed time is credited, and the source then schedules an
immediate `_tick` (an `Op.rawTick now` in run sequences).

Not modelled (external DOM collaborators): the `context` lookup — the
"Unable to find context" error is unreachable here — the engagement-event
listeners and the visibility listener.  A raw `every` entry of `0` would
make its watermark `NaN` (permanently inert) in the source; such entries
are excluded by the positivity hypotheses of the theorems below. -/
def mkTimer (now : Nat) (opts : Opts) : Except String Engine :=
  if opts.each = none ∧ opts.every = none then
    .error "Requires opts.each or opts.every."
  else if (truthyNum opts.idleAfter || opts.engagementEvents.isSome) &&
      !(truthyNum opts.idleAfter &&
        (match opts.engagementEvents with | some l => !l.isEmpty | none => false)) then
    .error "Configure opts.idleAfter & opts.engagementEvents for idling."
  else
    let everyInit := cleanMarks (opts.every.getD [])
    let eachInit := cleanMarks (opts.each.getD [])
    .ok
      { trackedTime :=
          match opts.startTime with
          | some t => if t ≠ 0 then now - t else 0
          | none => 0
        lastTick := opts.startTime
        tickElapsed := 0
        running := false
        intervalCleared := true
        firstTick := false
        idleTimer := none
        idleAfterMs := opts.idleAfter.map (fun a => a * 1000 + 1)
        minB := (opts.min.getD 0) * 1000
        maxB :=
          match opts.max with
          | some m => if m ≠ 0 then some (m * 1000) else none
          | none => none
        minInterval := (setGCD (everyInit ++ eachInit)).map (1000 * ·)
        each := eachInit
        eachInitAnn := some eachInit
        everyMemo :=
          (opts.every.getD []).map
            (fun n => if truthyNum opts.min then (opts.min.getD 0) % n + n else 0)
        everyInitAnn := some everyInit
        cache := [] }

/-- `_checkMark(mark)`: emit `interval` once per mark, keyed by `_cache`. -/
def checkMark (c : List Nat) (mark : Nat) : List Nat × List Event :=
  if mark ∈ c then (c, []) else (mark :: c, [Event.interval mark])

/-- `toCall.forEach(this._checkMark.bind(this))`: fold `checkMark` over the
due list, threading the cache and concatenating emissions. -/
def runMarks (c : List Nat) : List Nat → List Nat × List Event
  | [] => (c, [])
  | m :: ms =>
    let p := checkMark c m
    let q := runMarks p.1 ms
    (q.1, p.2 ++ q.2)

/-- One pass of the `every` inner loop for period `n` with watermark `memo`:
if `memo ≤ curr`, push `n * j + memo` for `j = 1 .. ⌊(curr - memo) / n⌋` and
set the watermark to `n * j` (note: *not* `n * j + memo`). -/
def everyStep (curr n memo : Nat) : Nat × List Nat :=
  if memo ≤ curr then
    let intervals := (curr - memo) / n
    (n * intervals, (List.range intervals).map (fun j => n * (j + 1) + memo))
  else (memo, [])

/-- The `while (i < this._every.length)` loop over `(initialValues[i],
_every[i])` pairs, returning the updated watermarks and all pushed marks. -/
def everyScan (curr : Nat) : List (Nat × Nat) → List Nat × List Nat
  | [] => ([], [])
  | (n, memo) :: rest =>
    let s := everyStep curr n memo
    let r := everyScan curr rest
    (s.1 :: r.1, s.2 ++ r.2)

/-- `_checkMarks()`: `curr` is tracked seconds; the `each` loop shifts due
offsets until the first one `> curr` (a `takeWhile`/`dropWhile` split); the
`every` loop reads `this._every.initialValues[i]` — after `reset()` that
property is gone, so entering the loop throws a `TypeError`; the due list is
sorted ascending and fed to `_checkMark`.

(Under the equal-length hypotheses of the theorems below, `zip` agrees with
the source's index iteration; a raw list with falsy entries would make the
source read `initialValues[i] = undefined` past the cleaned length, pushing
nothing for those indices.) -/
def checkMarks (s : Engine) : Except String (Engine × List Event) :=
  let curr := s.trackedTime / 1000
  let dueEach := s.each.takeWhile (· ≤ curr)
  let each' := s.each.dropWhile (· ≤ curr)
  match s.everyMemo, s.everyInitAnn with
  | [], _ =>
    let r := runMarks s.cache (jsSort dueEach)
    .ok ({ s with each := each', cache := r.1 }, r.2)
  | _ :: _, none =>
    .error "TypeError: this._every.initialValues is undefined"
  | ms, some init =>
    let e := everyScan curr (init.zip ms)
    let r := runMarks s.cache (jsSort (dueEach ++ e.2))
    .ok ({ s with each := each', everyMemo := e.1, cache := r.1 }, r.2)

/-- `destroy()`: clears the armed `Interval`.  The source then calls
`clearTimeout(this._idleTimeout)`, but the pending idle handle is stored in
`this._idleTimer` and `_idleTimeout` is never assigned anywhere, so the idle
timeout is left pending — `idleTimer` is unchanged. -/
def destroy (s : Engine) : Engine :=
  { s with intervalCleared := true }

/-- `_tick()`: advance `_trackedTime` by `d - _lastTick`, update `_lastTick`;
below `_min` return before evaluating marks; strictly above `_max` call
`destroy()` and return; otherwise `_checkMarks()`.  (`lastTick.getD d`
stands for the source's `this._lastTick`, which is never `undefined` on a
started engine.) -/
def tick (d : Nat) (s : Engine) : Except String (Engine × List Event) :=
  let lt := s.lastTick.getD d
  let tt := s.trackedTime + (d - lt)
  let s' := { s with trackedTime := tt, lastTick := some d }
  if tt < s'.minB then .ok (s', [])
  else if s'.maxB.any (· < tt) then .ok (destroy s', [])
  else checkMarks s'

/-- A scheduler-delivered tick: the `Interval` callback first checks its
`_cleared` flag.  The wrapper armed by `_startTimer` runs `_tick()`, then
clears its own `Interval`, installs a fresh one (so the scheduler is armed
after the first tick of a `start()` even if `_tick` called `destroy()` on
the max path), and zeroes `_tickElapsed`. -/
def schedTick (d : Nat) (s : Engine) : Except String (Engine × List Event) :=
  if s.intervalCleared then .ok (s, [])
  else
    match tick d s with
    | .error e => .error e
    | .ok (s', evs) =>
      .ok (if s.firstTick then
             { s' with tickElapsed := 0, firstTick := false, intervalCleared := false }
           else s', evs)

/-- `_resetIdleTimeout()` at wall-clock `now`: cancel the pending idle
timeout and arm a new one due `_idleAfter` ms later. -/
def resetIdleTimeout (now : Nat) (s : Engine) : Engine :=
  { s with idleTimer := s.idleAfterMs.map (fun a => now + a) }

/-- `start()` at `d`: no-op while `_running`; otherwise arm the idle timeout
if configured and not pending, set `_running`, arm the scheduler
(`_startTimer`), backdate `_lastTick` to `d - _tickElapsed`, emit `start`. -/
def start (d : Nat) (s : Engine) : Engine × List Event :=
  if s.running then (s, [])
  else
    let s₁ := if s.idleTimer = none ∧ s.idleAfterMs ≠ none then resetIdleTimeout d s else s
    ({ s₁ with
        running := true
        intervalCleared := false
        firstTick := true
        lastTick := some (d - s₁.tickElapsed) },
     [Event.start d])

/-- `pause()` at `d`: snapshot `_tickElapsed = d - _lastTick`, add it to
`_trackedTime`, clear the `Interval`, cancel the idle timeout
(`clearTimeout(this._idleTimer)`), unset `_running`, emit `pause`.  There is
no guard against pausing an already-paused engine.

When `_lastTick` is still `undefined` — a `pause()` before any `start()` on
an engine built without `startTime`, a reachable public call — the source
does not throw: it computes `d - undefined = NaN` and permanently poisons
`_trackedTime` and `_tickElapsed` (all later arithmetic stays `NaN`, and
`NaN` comparisons make `_checkMarks` drain the whole `each` list).  `Nat`
has no `NaN`, so rather than fabricate a finite value the model truncates
such a run with a distinguished error: no theorem below covers the poisoned
executions. -/
def pause (d : Nat) (s : Engine) : Except String (Engine × List Event) :=
  match s.lastTick with
  | none => .error "NaN: this._lastTick is undefined"
  | some lt =>
    let te := d - lt
    .ok ({ s with
            tickElapsed := te
            trackedTime := s.trackedTime + te
            intervalCleared := true
            idleTimer := none
            running := false },
         [Event.pause d])

/-- The idle deadline fires (the callback armed in `_resetIdleTimeout`): only
a still-pending timeout can fire; it pauses, emits `idle`, and nulls
`_idleTimer`.  (The deadline is armed only from `start()`, which has set
`_lastTick`, so the inner `pause` cannot hit the `NaN` case on a reachable
state.) -/
def fireIdle (s : Engine) : Except String (Engine × List Event) :=
  match s.idleTimer with
  | none => .ok (s, [])
  | some t =>
    match pause t s with
    | .error e => .error e
    | .ok (s', evs) => .ok ({ s' with idleTimer := none }, evs ++ [Event.idle t])

/-- `reset()` at `d`: `this._each = this._each.initialValues.slice(0)` (and
likewise `_every`) — a `TypeError` once the annotation is gone, and the new
plain arrays do not carry it; `_lastTick = now`, `_trackedTime = 0`,
`_cache = {}`, emit `reset`.  (The source also zeroes `_tickRemainder`, a
field never read anywhere; it is not part of the state.) -/
def reset (d : Nat) (s : Engine) : Except String (Engine × List Event) :=
  match s.eachInitAnn with
  | none => .error "TypeError: this._each.initialValues is undefined"
  | some ei =>
    match s.everyInitAnn with
    | none => .error "TypeError: this._every.initialValues is undefined"
    | some vi =>
      .ok ({ s with
              each := ei
              eachInitAnn := none
              everyMemo := vi
              everyInitAnn := none
              lastTick := some d
              trackedTime := 0
              cache := [] },
           [Event.reset d])

/-- The operations the event loop can deliver between resets: a scheduler
tick, the construction-scheduled immediate `_tick` (unguarded), the public
`start`/`pause`/`destroy`, and the idle deadline. -/
inductive Op where
  | tick (d : Nat)
  | rawTick (d : Nat)
  | start (d : Nat)
  | pause (d : Nat)
  | fireIdle
  | destroy
deriving DecidableEq, Repr

/-- One step of the event loop. -/
def step (op : Op) (s : Engine) : Except String (Engine × List Event) :=
  match op with
  | .tick d => schedTick d s
  | .rawTick d => tick d s
  | .start d => .ok (start d s)
  | .pause d => pause d s
  | .fireIdle => fireIdle s
  | .destroy => .ok (destroy s, [])

/-- Run a sequence of operations, concatenating the emitted events. -/
def run (s : Engine) : List Op → Except String (Engine × List Event)
  | [] => .ok (s, [])
  | op :: ops =>
    match step op s with
    | .error e => .error e
    | .ok (s₁, evs₁) =>
      match run s₁ ops with
      | .error e => .error e
      | .ok (s₂, evs₂) => .ok (s₂, evs₁ ++ evs₂)

/-- The numeric payload of an event (`data.time` of an `interval`,
`data.timestamp` of a lifecycle event); used to state emission order. -/
def evTime : Event → Nat
  | .interval t => t
  | .start t => t
  | .pause t => t
  | .reset t => t
  | .idle t => t

/-- Extract the engine from a construction result (scenario plumbing; the
default is never reached in the witnesses, which pin the `.ok` case by
`rfl`). -/
def engineOf (r : Except String Engine) (dflt : Engine) : Engine :=
  match r with
  | .ok s => s
  | .error _ => dflt

/-- The engine `EngagementTimer({ every: [1] })` builds (no `startTime`, so
nothing is tracked yet and no tick is pending). -/
def engEvery1 : Engine :=
  { trackedTime := 0
    lastTick := none
    tickElapsed := 0
    running := false
    intervalCleared := true
    firstTick := false
    idleTimer := none
    idleAfterMs := none
    minB := 0
    maxB := none
    minInterval := some 1000
    each := []
    eachInitAnn := some []
    everyMemo := [0]
    everyInitAnn := some [1]
    cache := [] }

/-- The engine built from `{ every: [2] }`. -/
def engEvery2 : Engine := engineOf (mkTimer 0 { every := some [2] }) engEvery1

/-- The engine built from `{ every: [1], max: 2 }`. -/
def engMax2 : Engine := engineOf (mkTimer 0 { every := some [1], max := some 2 }) engEvery1

/-- The engine built from `{ every: [4], min: 10 }`. -/
def engMin10 : Engine := engineOf (mkTimer 0 { every := some [4], min := some 10 }) engEvery1

/-- The engine built from
`{ every: [1], idleAfter: 1, engagementEvents: ['click'] }`. -/
def engIdle : Engine :=
  engineOf
    (mkTimer 0
      { every := some [1], idleAfter := some 1, engagementEvents := some ["click"] })
    engEvery1

/-! ## Helper lemmas: the GCD utilities -/

theorem GCDgo_eq_gcd (a b : Nat) : GCDgo a b = Nat.gcd a b := by
  induction b using Nat.strong_induction_on generalizing a with
  | _ b ih =>
    rw [GCDgo]
    by_cases hb : b = 0
    · simp [hb]
    · simp only [hb, dite_false]
      have hrec : Nat.gcd a b = Nat.gcd (a % b) b := by
        rw [Nat.gcd_comm a b, Nat.gcd_rec]
      by_cases ha : a % b = 0
      · simp only [ha, dif_pos]
        rw [hrec, ha, Nat.gcd_zero_left]
      · simp only [ha, dif_neg, not_false_iff]
        have hlt : b % (a % b) < b :=
          Nat.lt_trans (Nat.mod_lt _ (Nat.pos_of_ne_zero ha))
            (Nat.mod_lt _ (Nat.pos_of_ne_zero hb))
        rw [ih _ hlt, hrec, Nat.gcd_comm (a % b) (b % (a % b)), ← Nat.gcd_rec]

theorem GCD_eq_gcd (a b : Nat) : GCD a b = Nat.gcd a b := by
  unfold GCD
  by_cases h : a < b
  · simp only [h, if_true]
    rw [GCDgo_eq_gcd, Nat.gcd_comm]
  · simp only [h, if_false]
    exact GCDgo_eq_gcd a b

theorem foldl_GCD_eq_gcd_foldr (l : List Nat) (b : Nat) :
    l.foldl GCD b = Nat.gcd b (l.foldr Nat.gcd 0) := by
  induction l generalizing b with
  | nil => simp
  | cons x xs ih =>
    simp only [List.foldl_cons, List.foldr_cons, ih, GCD_eq_gcd, Nat.gcd_assoc]

theorem foldr_gcd_init (l : List Nat) (c : Nat) :
    l.foldr Nat.gcd c = Nat.gcd (l.foldr Nat.gcd 0) c := by
  induction l with
  | nil => simp
  | cons x xs ih => simp only [List.foldr_cons, ih, Nat.gcd_assoc]

theorem setGCD_eq_foldr {l : List Nat} (h : l ≠ []) :
    setGCD l = some (l.foldr Nat.gcd 0) := by
  unfold setGCD
  by_cases h1 : l.length = 1
  · obtain ⟨a, rfl⟩ := List.length_eq_one.mp h1
    simp
  · simp only [h1, if_false]
    rw [List.getLast?_eq_getLast_of_ne_nil h]
    show some (List.foldl GCD (l.getLast h) l.dropLast) = _
    have hsplit : l.dropLast ++ [l.getLast h] = l := List.dropLast_append_getLast h
    conv_rhs => rw [← hsplit]
    rw [List.foldr_append, List.foldr_cons, List.foldr_nil, foldl_GCD_eq_gcd_foldr]
    conv_rhs => rw [foldr_gcd_init]
    simp [Nat.gcd_comm]

/-! ## Claim theorems -/

/-- C10: `setGCD` returns the mathematical greatest common divisor of every
non-empty list of positive integers (a singleton returns its sole element,
which is its own gcd), and construction sets the tick period `_minInterval`
to 1000 times the GCD of the cleaned `every` and `each` values. -/
theorem c10_setGCD_poll_period :
    (∀ l : List Nat, l ≠ [] → (∀ x ∈ l, 0 < x) →
      setGCD l = some (l.foldr Nat.gcd 0)) ∧
    (∀ (now : Nat) (opts : Opts),
      (mkTimer now opts).isOk = true →
      cleanMarks (opts.every.getD []) ++ cleanMarks (opts.each.getD []) ≠ [] →
      (mkTimer now opts).map Engine.minInterval =
        .ok (some (1000 *
          ((cleanMarks (opts.every.getD []) ++
            cleanMarks (opts.each.getD [])).foldr Nat.gcd 0)))) := by
  constructor
  · intro l h _
    exact setGCD_eq_foldr h
  · intro now opts hok hne
    unfold mkTimer at hok ⊢
    split
    · simp_all [Except.isOk, Except.toBool]
    · split
      · simp_all [Except.isOk, Except.toBool]
      · simp only [Except.map]
        rw [setGCD_eq_foldr hne]
        rfl

/-- Witness for C10 at concrete inputs: `setGCD [12, 8, 6] = some 2`, and a
timer built from `every: [4, 6], each: [10]` polls every `2000` ms. -/
theorem c10_setGCD_poll_period_witness :
    setGCD [12, 8, 6] = some 2 ∧
    setGCD [7] = some 7 ∧
    (mkTimer 0 { every := some [4, 6], each := some [10] }).map Engine.minInterval =
      .ok (some 2000) :=
  ⟨(c10_setGCD_poll_period.1 [12, 8, 6] (by decide) (by decide)).trans rfl,
   (c10_setGCD_poll_period.1 [7] (by decide) (by decide)).trans rfl,
   (c10_setGCD_poll_period.2 0 { every := some [4, 6], each := some [10] }
      rfl (by decide)).trans rfl⟩

/-- C8 (amended): construction throws the nothing-to-schedule error exactly
when neither `each` nor `every` is supplied (JS `undefined`); a supplied but
empty list is truthy, so `each: [], every: []` is accepted (the poll period
then degenerates to `NaN`). -/
theorem c8_nothing_to_schedule_amended (now : Nat) (opts : Opts) :
    mkTimer now opts = .error "Requires opts.each or opts.every." ↔
      (opts.each = none ∧ opts.every = none) := by
  unfold mkTimer
  split
  · rename_i hcond
    simp [hcond]
  · rename_i hcond
    split
    · constructor
      · intro h
        exact absurd (Except.error.inj h) (by decide)
      · intro h
        exact absurd h hcond
    · constructor
      · intro h
        exact absurd h (by simp)
      · intro h
        exact absurd h hcond

/-- Counterexample for C8 as stated: with `each: []` and `every: []` (both
supplied, no mark values at all) construction succeeds instead of throwing. -/
theorem c8_empty_lists_accepted_counterexample :
    (mkTimer 0 { each := some [], every := some [] }).isOk = true ∧
    ({ each := some [], every := some [] } : Opts).each ≠ none := by
  exact ⟨rfl, by simp⟩

/-! ## Helper lemmas: `_checkMark` dedup (`runMarks`) -/

theorem runMarks_count (m : Nat) : ∀ (l c : List Nat),
    ((runMarks c l).2).count (Event.interval m) =
      if m ∈ c then 0 else if m ∈ l then 1 else 0 := by
  intro l
  induction l with
  | nil =>
    intro c
    simp [runMarks]
  | cons a ls ih =>
    intro c
    simp only [runMarks, checkMark]
    by_cases hac : a ∈ c
    · simp only [hac, if_true, List.nil_append]
      rw [ih c]
      by_cases hmc : m ∈ c
      · simp [hmc]
      · have hma : m ≠ a := fun he => hmc (he ▸ hac)
        simp [hmc, List.mem_cons, hma]
    · simp only [hac, if_false, List.cons_append, List.nil_append, List.count_cons]
      rw [ih (a :: c)]
      by_cases hma : m = a
      · subst hma
        simp [hac, List.mem_cons]
      · have h1 : (m ∈ a :: c) = (m ∈ c) := by
          simp [List.mem_cons, hma]
        have h2 : (m ∈ a :: ls) = (m ∈ ls) := by
          simp [List.mem_cons, hma]
        simp [h1, h2, Ne.symm hma]

theorem runMarks_cache_mem (x : Nat) : ∀ (l c : List Nat),
    x ∈ (runMarks c l).1 ↔ x ∈ c ∨ x ∈ l := by
  intro l
  induction l with
  | nil => intro c; simp [runMarks]
  | cons a ls ih =>
    intro c
    simp only [runMarks, checkMark]
    by_cases hac : a ∈ c
    · simp only [hac, if_true]
      rw [ih c]
      constructor
      · rintro (h | h)
        · exact Or.inl h
        · exact Or.inr (List.mem_cons_of_mem a h)
      · rintro (h | h)
        · exact Or.inl h
        · rcases List.mem_cons.mp h with rfl | h
          · exact Or.inl hac
          · exact Or.inr h
    · simp only [hac, if_false]
      rw [ih (a :: c)]
      simp only [List.mem_cons]
      tauto

theorem runMarks_events_sublist : ∀ (l c : List Nat),
    ((runMarks c l).2).Sublist (l.map Event.interval) := by
  intro l
  induction l with
  | nil => intro c; simp [runMarks]
  | cons a ls ih =>
    intro c
    simp only [runMarks, checkMark, List.map_cons]
    by_cases hac : a ∈ c
    · simp only [hac, if_true, List.nil_append]
      exact (ih c).cons _
    · simp only [hac, if_false, List.cons_append, List.nil_append]
      exact (ih (a :: c)).cons₂ _

theorem runMarks_fresh : ∀ (l c : List Nat), l.Nodup → (∀ x ∈ l, x ∉ c) →
    (runMarks c l).2 = l.map Event.interval := by
  intro l
  induction l with
  | nil => intro c _ _; simp [runMarks]
  | cons a ls ih =>
    intro c hnd hfresh
    have hac : a ∉ c := hfresh a (List.mem_cons_self a ls)
    simp only [runMarks, checkMark, hac, if_false, List.map_cons,
      List.cons_append, List.nil_append]
    congr 1
    apply ih
    · exact hnd.of_cons
    · intro x hx
      simp only [List.mem_cons, not_or]
      exact ⟨fun he => (List.nodup_cons.mp hnd).1 (he ▸ hx), hfresh x (List.mem_cons_of_mem a hx)⟩

theorem runMarks_triple (m : Nat) (c l : List Nat) :
    ((runMarks c l).2).count (Event.interval m) ≤ (if m ∈ c then 0 else 1) ∧
    (m ∈ c → m ∈ (runMarks c l).1) ∧
    (1 ≤ ((runMarks c l).2).count (Event.interval m) → m ∈ (runMarks c l).1) := by
  refine ⟨?_, ?_, ?_⟩
  · rw [runMarks_count]
    by_cases hmc : m ∈ c
    · simp [hmc]
    · simp only [hmc, if_false]
      split <;> omega
  · intro h
    exact (runMarks_cache_mem m l c).mpr (Or.inl h)
  · intro h
    rw [runMarks_count] at h
    by_cases hmc : m ∈ c
    · simp [hmc] at h
    · simp only [hmc, if_false] at h
      by_cases hml : m ∈ l
      · exact (runMarks_cache_mem m l c).mpr (Or.inr hml)
      · simp [hml] at h

theorem checkMarks_triple (m : Nat) (s s' : Engine) (evs : List Event)
    (h : checkMarks s = .ok (s', evs)) :
    evs.count (Event.interval m) ≤ (if m ∈ s.cache then 0 else 1) ∧
    (m ∈ s.cache → m ∈ s'.cache) ∧
    (1 ≤ evs.count (Event.interval m) → m ∈ s'.cache) := by
  unfold checkMarks at h
  split at h
  · injection h with h
    injection h with h1 h2
    subst h1
    subst h2
    exact runMarks_triple m s.cache _
  · cases h
  · injection h with h
    injection h with h1 h2
    subst h1
    subst h2
    exact runMarks_triple m s.cache _

theorem tick_triple (m : Nat) (d : Nat) (s s' : Engine) (evs : List Event)
    (h : tick d s = .ok (s', evs)) :
    evs.count (Event.interval m) ≤ (if m ∈ s.cache then 0 else 1) ∧
    (m ∈ s.cache → m ∈ s'.cache) ∧
    (1 ≤ evs.count (Event.interval m) → m ∈ s'.cache) := by
  simp only [tick] at h
  split at h
  · injection h with h
    injection h with h1 h2
    subst h1
    subst h2
    refine ⟨by simp, fun hm => hm, by simp⟩
  · split at h
    · injection h with h
      injection h with h1 h2
      subst h1
      subst h2
      refine ⟨by simp, fun hm => hm, by simp⟩
    · have t := checkMarks_triple m _ s' evs h
      exact t

theorem no_interval_count (m : Nat) (evs : List Event)
    (h : ∀ t, Event.interval t ∉ evs) : evs.count (Event.interval m) = 0 :=
  List.count_eq_zero.mpr (h m)

theorem step_triple (m : Nat) (op : Op) (s s' : Engine) (evs : List Event)
    (h : step op s = .ok (s', evs)) :
    evs.count (Event.interval m) ≤ (if m ∈ s.cache then 0 else 1) ∧
    (m ∈ s.cache → m ∈ s'.cache) ∧
    (1 ≤ evs.count (Event.interval m) → m ∈ s'.cache) := by
  cases op with
  | tick d =>
    simp only [step, schedTick] at h
    split at h
    · injection h with h
      injection h with h1 h2
      subst h1
      subst h2
      refine ⟨by simp, fun hm => hm, by simp⟩
    · split at h
      · cases h
      · rename_i s1 e1 heq
        injection h with h
        injection h with h1 h2
        subst h1
        subst h2
        have t := tick_triple m d s s1 e1 heq
        refine ⟨t.1, ?_, ?_⟩
        · intro hm
          have := t.2.1 hm
          split <;> exact this
        · intro hm
          have := t.2.2 hm
          split <;> exact this
  | rawTick d =>
    exact tick_triple m d s s' evs (by simpa [step] using h)
  | start d =>
    simp only [step, start] at h
    split at h
    · injection h with h
      injection h with h1 h2
      subst h1
      subst h2
      refine ⟨by simp, fun hm => hm, by simp⟩
    · injection h with h
      injection h with h1 h2
      subst h1
      subst h2
      have hc : s.cache = (if s.idleTimer = none ∧ s.idleAfterMs ≠ none
          then resetIdleTimeout d s else s).cache := by
        split <;> rfl
      refine ⟨by simp [no_interval_count], ?_, by simp [no_interval_count]⟩
      intro hm
      simpa [← hc] using hm
  | pause d =>
    simp only [step, pause] at h
    split at h
    · cases h
    · injection h with h
      injection h with h1 h2
      subst h1
      subst h2
      refine ⟨by simp [no_interval_count], fun hm => hm, by simp [no_interval_count]⟩
  | fireIdle =>
    cases hidle : s.idleTimer with
    | none =>
      simp only [step, fireIdle, hidle] at h
      injection h with h
      injection h with h1 h2
      subst h1
      subst h2
      refine ⟨by simp, fun hm => hm, by simp⟩
    | some t =>
      cases hlt : s.lastTick with
      | none =>
        simp only [step, fireIdle, hidle, pause, hlt] at h
        cases h
      | some lt =>
        simp only [step, fireIdle, hidle, pause, hlt] at h
        injection h with h
        injection h with h1 h2
        subst h1
        subst h2
        refine ⟨by simp [no_interval_count], fun hm => hm, by simp [no_interval_count]⟩
  | destroy =>
    simp only [step, destroy] at h
    injection h with h
    injection h with h1 h2
    subst h1
    subst h2
    refine ⟨by simp, fun hm => hm, by simp⟩

theorem run_cons_inv {s s' : Engine} {op : Op} {ops : List Op} {evs : List Event}
    (h : run s (op :: ops) = .ok (s', evs)) :
    ∃ s₁ evs₁ evs₂, step op s = .ok (s₁, evs₁) ∧ run s₁ ops = .ok (s', evs₂) ∧
      evs = evs₁ ++ evs₂ := by
  simp only [run] at h
  cases hstep : step op s with
  | error e => rw [hstep] at h; cases h
  | ok r =>
    obtain ⟨s1, e1⟩ := r
    rw [hstep] at h
    dsimp only at h
    cases hrun : run s1 ops with
    | error e => rw [hrun] at h; cases h
    | ok q =>
      obtain ⟨s2, e2⟩ := q
      rw [hrun] at h
      dsimp only at h
      injection h with h
      injection h with h1 h2
      subst h1
      subst h2
      exact ⟨s1, e1, e2, rfl, hrun, rfl⟩

theorem run_triple (m : Nat) : ∀ (ops : List Op) (s s' : Engine) (evs : List Event),
    run s ops = .ok (s', evs) →
    evs.count (Event.interval m) ≤ (if m ∈ s.cache then 0 else 1) ∧
    (m ∈ s.cache → m ∈ s'.cache) ∧
    (1 ≤ evs.count (Event.interval m) → m ∈ s'.cache) := by
  intro ops
  induction ops with
  | nil =>
    intro s s' evs h
    simp only [run] at h
    injection h with h
    injection h with h1 h2
    subst h1
    subst h2
    refine ⟨by simp, fun hm => hm, by simp⟩
  | cons op ops ih =>
    intro s s' evs h
    obtain ⟨s1, e1, e2, hstep, hrun, rfl⟩ := run_cons_inv h
    have t1 := step_triple m op s s1 e1 hstep
    have t2 := ih s1 s' e2 hrun
    rw [List.count_append]
    by_cases hmc : m ∈ s.cache
    · have he1 : e1.count (Event.interval m) = 0 := by
        have := t1.1
        simp only [hmc, if_true] at this
        omega
      have hm1 : m ∈ s1.cache := t1.2.1 hmc
      have he2 : e2.count (Event.interval m) = 0 := by
        have := t2.1
        simp only [hm1, if_true] at this
        omega
      refine ⟨by simp [he1, he2, hmc], fun _ => t2.2.1 hm1, ?_⟩
      intro habs
      omega
    · simp only [hmc, if_false]
      have b1 := t1.1
      simp only [hmc, if_false] at b1
      by_cases h1 : 1 ≤ e1.count (Event.interval m)
      · have hm1 : m ∈ s1.cache := t1.2.2 h1
        have he2 : e2.count (Event.interval m) = 0 := by
          have := t2.1
          simp only [hm1, if_true] at this
          omega
        refine ⟨by omega, fun hm => hm.elim, fun _ => t2.2.1 hm1⟩
      · have he1 : e1.count (Event.interval m) = 0 := by omega
        have b2 := t2.1
        refine ⟨?_, fun hm => hm.elim, ?_⟩
        · split at b2 <;> omega
        · intro hc
          rw [he1] at hc
          simp only [Nat.zero_add] at hc
          exact t2.2.2 hc

/-- C3: at-most-once delivery.  Between construction (or a `reset()`, both of
which leave `_cache` empty) and the next `reset()`, any sequence of ticks and
lifecycle operations emits the `interval` event with `time = m` at most once;
and once a mark is recorded in `_cache`, no later operation sequence ever
emits it again, no matter how often `_checkMarks` proposes it. -/
theorem c3_at_most_once (m : Nat) (ops : List Op) (s s' : Engine)
    (evs : List Event) (hrun : run s ops = .ok (s', evs)) :
    (s.cache = [] → evs.count (Event.interval m) ≤ 1) ∧
    (m ∈ s.cache → evs.count (Event.interval m) = 0) := by
  have t := run_triple m ops s s' evs hrun
  constructor
  · intro hc
    have := t.1
    simp only [hc] at this
    simpa using this
  · intro hm
    have := t.1
    simp only [hm, if_true] at this
    omega

/-- Witness for C3: the `{ every: [2] }` engine, started and ticked at 3 s
and again (late) at 9 s, emits `interval 4` exactly once over the run. -/
theorem c3_at_most_once_witness :
    mkTimer 0 { every := some [2] } = .ok engEvery2 ∧
    engEvery2.cache = [] ∧
    (match run engEvery2 [Op.start 0, Op.tick 3000, Op.tick 9000] with
     | .ok r => r.2.count (Event.interval 4) ≤ 1
     | .error _ => False) := by
  refine ⟨rfl, rfl, ?_⟩
  have h := c3_at_most_once 4 [Op.start 0, Op.tick 3000, Op.tick 9000]
    engEvery2 _ _ rfl
  exact h.1 rfl

/-! ## Helper lemmas: the `every` catch-up machinery -/

theorem runMarks_mem_iff (x : Nat) (c l : List Nat) :
    Event.interval x ∈ (runMarks c l).2 ↔ (x ∉ c ∧ x ∈ l) := by
  have hc := runMarks_count x l c
  constructor
  · intro hmem
    have hne : ((runMarks c l).2).count (Event.interval x) ≠ 0 :=
      fun h0 => (List.count_eq_zero.mp h0) hmem
    by_cases h1 : x ∈ c
    · simp only [h1, if_true] at hc
      exact absurd hc hne
    · by_cases h2 : x ∈ l
      · exact ⟨h1, h2⟩
      · simp only [h1, h2, if_false] at hc
        exact absurd hc hne
  · rintro ⟨h1, h2⟩
    by_contra hmem
    have h0 := List.count_eq_zero.mpr hmem
    simp only [h1, h2, if_false, if_true] at hc
    omega

theorem mem_mult_range (p j n x : Nat) :
    x ∈ (List.range n).map (fun i => p * (j + 1 + i)) ↔
      ∃ t, j < t ∧ t ≤ j + n ∧ x = p * t := by
  rw [List.mem_map]
  constructor
  · rintro ⟨i, hi, rfl⟩
    rw [List.mem_range] at hi
    exact ⟨j + 1 + i, by omega, by omega, rfl⟩
  · rintro ⟨t, h1, h2, rfl⟩
    refine ⟨t - j - 1, ?_, ?_⟩
    · rw [List.mem_range]
      omega
    · congr 1
      omega

theorem everyStep_active (curr p j : Nat) (h : p * j ≤ curr) :
    everyStep curr p (p * j) =
      (p * (curr / p - j),
       (List.range (curr / p - j)).map (fun i => p * (j + 1 + i))) := by
  unfold everyStep
  rw [if_pos h, Nat.sub_mul_div curr p j h]
  dsimp only
  congr 1
  apply List.map_congr_left
  intro i _
  ring

theorem pushed_sorted (p j n : Nat) :
    List.Sorted (· ≤ ·) ((List.range n).map (fun i => p * (j + 1 + i))) := by
  rw [List.Sorted, List.pairwise_map]
  exact (List.pairwise_lt_range n).imp
    (fun h => Nat.mul_le_mul_left p (by omega))

theorem pushed_nodup (p j n : Nat) (hp : 0 < p) :
    ((List.range n).map (fun i => p * (j + 1 + i))).Nodup := by
  rw [List.Nodup, List.pairwise_map]
  exact (List.pairwise_lt_range n).imp
    (fun h heq => by
      have := Nat.eq_of_mul_eq_mul_left hp heq
      omega)

/-- `_checkMarks` with a single repeating period `p` (no `each` offsets):
from a state whose watermark is `p * j` and whose `_cache` holds exactly the
instances `p, 2p, …, Kp` (with `j ≤ K`), one invocation emits precisely the
instances `p(K+1), …, pL` for `L = ⌊curr / p⌋` — every intervening one, in
ascending order — and advances the watermark to `p (L - j)`. -/
theorem checkMarks_single_every
    (p j K : Nat) (s s' : Engine) (evs : List Event)
    (hp : 0 < p)
    (heach : s.each = [])
    (hinit : s.everyInitAnn = some [p])
    (hmemo : s.everyMemo = [p * j])
    (hjK : j ≤ K)
    (hcache : ∀ x, x ∈ s.cache ↔ ∃ t, 1 ≤ t ∧ t ≤ K ∧ x = p * t)
    (hK : p * K ≤ s.trackedTime / 1000)
    (h : checkMarks s = .ok (s', evs)) :
    (∀ t, K < t → t ≤ s.trackedTime / 1000 / p → Event.interval (p * t) ∈ evs) ∧
    (∀ ev ∈ evs, ∃ t, K < t ∧ t ≤ s.trackedTime / 1000 / p ∧
      ev = Event.interval (p * t)) ∧
    evs.Pairwise (fun a b => evTime a ≤ evTime b) ∧
    s'.everyMemo = [p * (s.trackedTime / 1000 / p - j)] ∧
    (∀ x, x ∈ s'.cache ↔ ∃ t, 1 ≤ t ∧ t ≤ s.trackedTime / 1000 / p ∧ x = p * t) := by
  have hKL : K ≤ s.trackedTime / 1000 / p :=
    (Nat.le_div_iff_mul_le hp).mpr (by rw [Nat.mul_comm]; exact hK)
  have hpj : p * j ≤ s.trackedTime / 1000 := by
    calc p * j ≤ p * K := Nat.mul_le_mul_left p hjK
    _ ≤ s.trackedTime / 1000 := hK
  simp only [checkMarks] at h
  rw [heach, hmemo, hinit] at h
  simp only [List.takeWhile_nil, List.dropWhile_nil, List.zip_cons_cons,
    List.zip_nil_right, everyScan, everyStep_active _ p j hpj,
    List.append_nil, List.nil_append, jsSort,
    List.Sorted.insertionSort_eq (pushed_sorted p j _)] at h
  injection h with h
  injection h with h1 h2
  subst h1
  subst h2
  set curr := s.trackedTime / 1000 with hcurr
  set L := curr / p with hL
  have hmem : ∀ x : Nat,
      (x ∈ (List.range (L - j)).map (fun i => p * (j + 1 + i)) ↔
        ∃ t, j < t ∧ t ≤ L ∧ x = p * t) := by
    intro x
    rw [mem_mult_range]
    constructor
    · rintro ⟨t, ht1, ht2, rfl⟩
      exact ⟨t, ht1, by omega, rfl⟩
    · rintro ⟨t, ht1, ht2, rfl⟩
      exact ⟨t, ht1, by omega, rfl⟩
  have hnotc : ∀ t, K < t → p * t ∉ s.cache := by
    intro t ht hmemc
    obtain ⟨t', h1, h2, heq⟩ := (hcache _).mp hmemc
    have := Nat.eq_of_mul_eq_mul_left hp heq
    omega
  refine ⟨?_, ?_, ?_, rfl, ?_⟩
  · intro t ht1 ht2
    rw [runMarks_mem_iff]
    exact ⟨hnotc t ht1, (hmem _).mpr ⟨t, by omega, ht2, rfl⟩⟩
  · intro ev hev
    have hsub := runMarks_events_sublist
      ((List.range (L - j)).map (fun i => p * (j + 1 + i))) s.cache
    have hev' := hsub.subset hev
    rw [List.mem_map] at hev'
    obtain ⟨x, hx, rfl⟩ := hev'
    obtain ⟨t, ht1, ht2, rfl⟩ := (hmem x).mp hx
    have hnc : p * t ∉ s.cache := by
      intro hc
      have h0 : Event.interval (p * t) ∉
          (runMarks s.cache ((List.range (L - j)).map (fun i => p * (j + 1 + i)))).2 := by
        rw [runMarks_mem_iff]
        tauto
      exact h0 hev
    have htK : K < t := by
      by_contra hle
      exact hnc ((hcache _).mpr ⟨t, by omega, by omega, rfl⟩)
    exact ⟨t, htK, ht2, rfl⟩
  · have hpw : ((List.range (L - j)).map (fun i => p * (j + 1 + i))).map
        Event.interval |>.Pairwise (fun a b => evTime a ≤ evTime b) := by
      rw [List.pairwise_map]
      exact pushed_sorted p j (L - j)
    exact List.Pairwise.sublist (runMarks_events_sublist _ _) hpw
  · intro x
    rw [runMarks_cache_mem, hcache, hmem]
    constructor
    · rintro (⟨t, h1, h2, rfl⟩ | ⟨t, h1, h2, rfl⟩)
      · exact ⟨t, h1, by omega, rfl⟩
      · exact ⟨t, by omega, h2, rfl⟩
    · rintro ⟨t, h1, h2, rfl⟩
      by_cases htK : t ≤ K
      · exact Or.inl ⟨t, h1, htK, rfl⟩
      · exact Or.inr ⟨t, by omega, h2, rfl⟩

/-- C4: catch-up correctness.  If a tick is delayed so that several
instances of the repeating period `p` elapsed since the previous tick (the
cache holds instances up to `Kp`, the tracked seconds have reached past it),
the single next `_checkMarks` invocation emits every intervening instance
`p(K+1), …, p⌊curr/p⌋` — not only the most recent — in ascending order; no
instance is skipped, and the watermark and cache are left consistent. -/
theorem c4_catch_up
    (p j K : Nat) (s s' : Engine) (evs : List Event)
    (hp : 0 < p)
    (heach : s.each = [])
    (hinit : s.everyInitAnn = some [p])
    (hmemo : s.everyMemo = [p * j])
    (hjK : j ≤ K)
    (hcache : ∀ x, x ∈ s.cache ↔ ∃ t, 1 ≤ t ∧ t ≤ K ∧ x = p * t)
    (hK : p * K ≤ s.trackedTime / 1000)
    (h : checkMarks s = .ok (s', evs)) :
    (∀ t, K < t → t ≤ s.trackedTime / 1000 / p → Event.interval (p * t) ∈ evs) ∧
    (∀ ev ∈ evs, ∃ t, K < t ∧ t ≤ s.trackedTime / 1000 / p ∧
      ev = Event.interval (p * t)) ∧
    evs.Pairwise (fun a b => evTime a ≤ evTime b) ∧
    s'.everyMemo = [p * (s.trackedTime / 1000 / p - j)] ∧
    (∀ x, x ∈ s'.cache ↔ ∃ t, 1 ≤ t ∧ t ≤ s.trackedTime / 1000 / p ∧ x = p * t) :=
  checkMarks_single_every p j K s s' evs hp heach hinit hmemo hjK hcache hK h

/-- Witness for C4: period 2 s, watermark 2, instances 2 and 4 already
fired; a delayed tick at 9 s emits both intervening instances 6 and 8 and
advances the watermark to 6. -/
theorem c4_catch_up_witness :
    (match checkMarks { engEvery2 with trackedTime := 9000, everyMemo := [2], cache := [4, 2] } with
     | .ok r => Event.interval 6 ∈ r.2 ∧ Event.interval 8 ∈ r.2 ∧ r.1.everyMemo = [6]
     | .error _ => False) := by
  have h := c4_catch_up 2 1 2
    { engEvery2 with trackedTime := 9000, everyMemo := [2], cache := [4, 2] } _ _
    (by decide) rfl rfl rfl (by decide)
    (by
      intro x
      constructor
      · intro hx
        rcases List.mem_cons.mp hx with rfl | hx
        · exact ⟨2, by omega, by omega, rfl⟩
        · rcases List.mem_cons.mp hx with rfl | hx
          · exact ⟨1, by omega, by omega, rfl⟩
          · cases hx
      · rintro ⟨t, h1, h2, rfl⟩
        interval_cases t
        · decide
        · decide)
    (by decide) rfl
  exact ⟨h.1 3 (by decide) (by decide), h.1 4 (by decide) (by decide),
    h.2.2.2.1.trans (by decide)⟩

/-- C6 (amended): when no `min` floor is configured, the watermark of a
repeating period `p` starts at 0, so the first due instance is `p` itself
and each subsequent instance adds `p`: a tick with `curr` tracked seconds on
a fresh cache emits exactly `p, 2p, …, p⌊curr/p⌋` in that order.  (The
claim's `min`-floor rule — first instance the smallest multiple of `p` that
is `≥ min` — does not hold; see the counterexample.) -/
theorem c6_first_instance_no_min_amended
    (p : Nat) (s s' : Engine) (evs : List Event)
    (hp : 0 < p)
    (heach : s.each = [])
    (hinit : s.everyInitAnn = some [p])
    (hmemo : s.everyMemo = [0])
    (hcache : s.cache = [])
    (h : checkMarks s = .ok (s', evs)) :
    evs = (List.range (s.trackedTime / 1000 / p)).map
      (fun i => Event.interval (p * (1 + i))) ∧
    s'.everyMemo = [p * (s.trackedTime / 1000 / p)] := by
  have hmemo' : s.everyMemo = [p * 0] := by simpa using hmemo
  have hpj : p * 0 ≤ s.trackedTime / 1000 := by simp
  simp only [checkMarks] at h
  rw [heach, hmemo', hinit] at h
  simp only [List.takeWhile_nil, List.dropWhile_nil, List.zip_cons_cons,
    List.zip_nil_right, everyScan, everyStep_active _ p 0 hpj,
    List.append_nil, List.nil_append, jsSort,
    List.Sorted.insertionSort_eq (pushed_sorted p 0 _)] at h
  rw [hcache] at h
  rw [runMarks_fresh _ _ (pushed_nodup p 0 _ hp) (fun x _ hx => (List.not_mem_nil x) hx)] at h
  injection h with h
  injection h with h1 h2
  subst h1
  subst h2
  constructor
  · rw [List.map_map]
    apply List.map_congr_left
    intro i _
    simp [Function.comp]
  · simp

/-- Counterexample for C6 as stated: with `min: 10` and `every: [4]` the
smallest multiple of 4 that is ≥ 10 is 12, but the watermark starts at
`(10 % 4) + 4 = 6` and the first tick past the minimum (at 10 s) emits the
instance 10 — not even a multiple of the period. -/
theorem c6_min_floor_counterexample :
    mkTimer 0 { every := some [4], min := some 10 } = .ok engMin10 ∧
    (match run engMin10 [Op.start 0, Op.tick 10000] with
     | .ok r => r.2 = [Event.start 0, Event.interval 10]
     | .error _ => False) ∧
    (10 : Nat) ≠ 12 ∧ (10 : Nat) % 4 ≠ 0 :=
  ⟨rfl, rfl, by decide, by decide⟩

/-- Witness for C6 (amended) at `p = 2`, `curr = 5`: the tick emits exactly
`2, 4` in order and the watermark advances to 4. -/
theorem c6_first_instance_no_min_witness :
    (match checkMarks { engEvery2 with trackedTime := 5000 } with
     | .ok r => r.2 = [Event.interval 2, Event.interval 4] ∧ r.1.everyMemo = [4]
     | .error _ => False) := by
  have h := c6_first_instance_no_min_amended 2
    { engEvery2 with trackedTime := 5000 } _ _
    (by decide) rfl rfl rfl rfl rfl
  exact ⟨h.1.trans (by decide), h.2.trans (by decide)⟩

/-! ## Helper lemmas: run composition, frozen-while-paused, monotonicity -/

theorem run_nil (s : Engine) : run s [] = .ok (s, []) := rfl

theorem run_cons_ok {s s₁ s₂ : Engine} {op : Op} {ops : List Op}
    {e₁ e₂ : List Event}
    (h1 : step op s = .ok (s₁, e₁)) (h2 : run s₁ ops = .ok (s₂, e₂)) :
    run s (op :: ops) = .ok (s₂, e₁ ++ e₂) := by
  simp only [run, h1, h2]

theorem run_ticks_cleared (s : Engine) (h : s.intervalCleared = true)
    (ds : List Nat) : run s (ds.map Op.tick) = .ok (s, []) := by
  induction ds with
  | nil => rfl
  | cons d ds ih =>
    have hstep : step (Op.tick d) s = .ok (s, []) := by
      simp [step, schedTick, h]
    simpa using run_cons_ok hstep ih

theorem run_ticks_after_max (M : Nat) : ∀ (ds : List Nat) (s : Engine),
    s.maxB = some M → M < s.trackedTime → s.minB ≤ s.trackedTime →
    ∃ s'', run s (ds.map Op.tick) = .ok (s'', []) ∧ s''.cache = s.cache ∧
      s''.maxB = some M ∧ M < s''.trackedTime ∧ s''.minB ≤ s''.trackedTime := by
  intro ds
  induction ds with
  | nil =>
    intro s h1 h2 h3
    exact ⟨s, rfl, rfl, h1, h2, h3⟩
  | cons d ds ih =>
    intro s h1 h2 h3
    by_cases hcl : s.intervalCleared = true
    · have hstep : step (Op.tick d) s = .ok (s, []) := by
        simp [step, schedTick, hcl]
      obtain ⟨s'', hrun, hc, hm, ht, hmin⟩ := ih s h1 h2 h3
      exact ⟨s'', by simpa using run_cons_ok hstep hrun, hc, hm, ht, hmin⟩
    · have hM' : M < s.trackedTime + (d - s.lastTick.getD d) := by omega
      have hmin' : ¬ (s.trackedTime + (d - s.lastTick.getD d) < s.minB) := by omega
      have htick : tick d s = .ok
          (destroy { s with trackedTime := s.trackedTime + (d - s.lastTick.getD d),
                            lastTick := some d }, []) := by
        simp only [tick]
        rw [if_neg hmin']
        rw [if_pos]
        simp only [h1, Option.any_some]
        exact decide_eq_true hM'
      have hstep : step (Op.tick d) s =
          .ok ((if s.firstTick then
                  { destroy { s with
                      trackedTime := s.trackedTime + (d - s.lastTick.getD d),
                      lastTick := some d } with
                    tickElapsed := 0, firstTick := false, intervalCleared := false }
                else destroy { s with
                      trackedTime := s.trackedTime + (d - s.lastTick.getD d),
                      lastTick := some d }), []) := by
        simp only [step, schedTick, hcl, Bool.false_eq_true, if_false, htick]
      have hc1 : (if s.firstTick then
                  { destroy { s with
                      trackedTime := s.trackedTime + (d - s.lastTick.getD d),
                      lastTick := some d } with
                    tickElapsed := 0, firstTick := false, intervalCleared := false }
                else destroy { s with
                      trackedTime := s.trackedTime + (d - s.lastTick.getD d),
                      lastTick := some d }).cache = s.cache := by
        split <;> rfl
      have hm1 : (if s.firstTick then
                  { destroy { s with
                      trackedTime := s.trackedTime + (d - s.lastTick.getD d),
                      lastTick := some d } with
                    tickElapsed := 0, firstTick := false, intervalCleared := false }
                else destroy { s with
                      trackedTime := s.trackedTime + (d - s.lastTick.getD d),
                      lastTick := some d }).maxB = some M := by
        split <;> exact h1
      have ht1 : M < (if s.firstTick then
                  { destroy { s with
                      trackedTime := s.trackedTime + (d - s.lastTick.getD d),
                      lastTick := some d } with
                    tickElapsed := 0, firstTick := false, intervalCleared := false }
                else destroy { s with
                      trackedTime := s.trackedTime + (d - s.lastTick.getD d),
                      lastTick := some d }).trackedTime := by
        split <;> exact hM'
      have hb1 : (if s.firstTick then
                  { destroy { s with
                      trackedTime := s.trackedTime + (d - s.lastTick.getD d),
                      lastTick := some d } with
                    tickElapsed := 0, firstTick := false, intervalCleared := false }
                else destroy { s with
                      trackedTime := s.trackedTime + (d - s.lastTick.getD d),
                      lastTick := some d }).minB ≤ (if s.firstTick then
                  { destroy { s with
                      trackedTime := s.trackedTime + (d - s.lastTick.getD d),
                      lastTick := some d } with
                    tickElapsed := 0, firstTick := false, intervalCleared := false }
                else destroy { s with
                      trackedTime := s.trackedTime + (d - s.lastTick.getD d),
                      lastTick := some d }).trackedTime := by
        split
        · show s.minB ≤ s.trackedTime + (d - s.lastTick.getD d)
          omega
        · show s.minB ≤ s.trackedTime + (d - s.lastTick.getD d)
          omega
      obtain ⟨s'', hrun, hc, hm, ht, hminf⟩ := ih _ hm1 ht1 hb1
      refine ⟨s'', by simpa using run_cons_ok hstep hrun, ?_, hm, ht, hminf⟩
      rw [hc, hc1]

theorem checkMarks_fields (s s' : Engine) (evs : List Event)
    (h : checkMarks s = .ok (s', evs)) :
    s'.trackedTime = s.trackedTime ∧ s'.intervalCleared = s.intervalCleared ∧
    s'.running = s.running ∧ s'.lastTick = s.lastTick ∧
    s'.firstTick = s.firstTick ∧ s'.tickElapsed = s.tickElapsed ∧
    s'.idleTimer = s.idleTimer := by
  simp only [checkMarks] at h
  split at h
  · injection h with h
    injection h with h1 h2
    subst h1
    exact ⟨rfl, rfl, rfl, rfl, rfl, rfl, rfl⟩
  · cases h
  · injection h with h
    injection h with h1 h2
    subst h1
    exact ⟨rfl, rfl, rfl, rfl, rfl, rfl, rfl⟩

theorem tick_mono (d : Nat) (s s' : Engine) (evs : List Event)
    (h : tick d s = .ok (s', evs)) : s.trackedTime ≤ s'.trackedTime := by
  simp only [tick] at h
  split at h
  · injection h with h
    injection h with h1 h2
    subst h1
    exact Nat.le_add_right _ _
  · split at h
    · injection h with h
      injection h with h1 h2
      subst h1
      exact Nat.le_add_right _ _
    · have hf := (checkMarks_fields _ s' evs h).1
      rw [hf]
      exact Nat.le_add_right _ _

theorem step_mono (op : Op) (s s' : Engine) (evs : List Event)
    (h : step op s = .ok (s', evs)) : s.trackedTime ≤ s'.trackedTime := by
  cases op with
  | tick d =>
    simp only [step, schedTick] at h
    split at h
    · injection h with h
      injection h with h1 h2
      subst h1
      exact Nat.le_refl _
    · split at h
      · cases h
      · rename_i s1 e1 heq
        injection h with h
        injection h with h1 h2
        subst h1
        have := tick_mono d s s1 e1 heq
        split <;> exact this
  | rawTick d =>
    exact tick_mono d s s' evs (by simpa [step] using h)
  | start d =>
    simp only [step, start] at h
    split at h
    · injection h with h
      injection h with h1 h2
      subst h1
      exact Nat.le_refl _
    · injection h with h
      injection h with h1 h2
      subst h1
      split <;> exact Nat.le_refl _
  | pause d =>
    simp only [step, pause] at h
    split at h
    · cases h
    · injection h with h
      injection h with h1 h2
      subst h1
      exact Nat.le_add_right _ _
  | fireIdle =>
    cases hidle : s.idleTimer with
    | none =>
      simp only [step, fireIdle, hidle] at h
      injection h with h
      injection h with h1 h2
      subst h1
      exact Nat.le_refl _
    | some t =>
      cases hlt : s.lastTick with
      | none =>
        simp only [step, fireIdle, hidle, pause, hlt] at h
        cases h
      | some lt =>
        simp only [step, fireIdle, hidle, pause, hlt] at h
        injection h with h
        injection h with h1 h2
        subst h1
        exact Nat.le_add_right _ _
  | destroy =>
    simp only [step, destroy] at h
    injection h with h
    injection h with h1 h2
    subst h1
    exact Nat.le_refl _

theorem run_mono : ∀ (ops : List Op) (s s' : Engine) (evs : List Event),
    run s ops = .ok (s', evs) → s.trackedTime ≤ s'.trackedTime := by
  intro ops
  induction ops with
  | nil =>
    intro s s' evs h
    simp only [run] at h
    injection h with h
    injection h with h1 h2
    subst h1
    exact Nat.le_refl _
  | cons op ops ih =>
    intro s s' evs h
    obtain ⟨s1, e1, e2, hstep, hrun, rfl⟩ := run_cons_inv h
    exact Nat.le_trans (step_mono op s s1 e1 hstep) (ih s1 s' e2 hrun)

/-- C2 (amended): `trackedTime` is frozen while the engine is paused in the
sense that scheduler ticks are inert once the `Interval` is cleared (as
`pause()` leaves it) — any number of ticks at any times change nothing and
emit nothing; and `trackedTime` is monotonically non-decreasing across every
operation sequence.  (The claim's "repeated `pause()` calls leave it
unchanged" is false: an unguarded second `pause()` re-adds the time since
the stale `_lastTick`; see the counterexample.) -/
theorem c2_frozen_monotone_amended :
    (∀ (s : Engine) (ds : List Nat), s.intervalCleared = true →
      run s (ds.map Op.tick) = .ok (s, [])) ∧
    (∀ (ops : List Op) (s s' : Engine) (evs : List Event),
      run s ops = .ok (s', evs) → s.trackedTime ≤ s'.trackedTime) :=
  ⟨fun s ds h => run_ticks_cleared s h ds, fun ops s s' evs h => run_mono ops s s' evs h⟩

/-- Witness for C2 (amended): the paused engine after
`start @0, tick @1000, pause @1500` ignores ticks at 2000 ms and 3000 ms
(`trackedTime` stays 1500), and the run to that point is monotone. -/
theorem c2_frozen_monotone_witness :
    (match run engEvery1 [Op.start 0, Op.tick 1000, Op.pause 1500] with
     | .ok r => run r.1 ([2000, 3000].map Op.tick) = .ok (r.1, []) ∧
         engEvery1.trackedTime ≤ r.1.trackedTime
     | .error _ => False) := by
  have h1 := c2_frozen_monotone_amended.1
  have h2 := c2_frozen_monotone_amended.2 [Op.start 0, Op.tick 1000, Op.pause 1500]
    engEvery1 _ _ rfl
  exact ⟨h1 _ [2000, 3000] rfl, h2⟩

/-- Counterexample for C2 as stated: after pausing at 1500 ms (tracked time
1500), a second `pause()` at 2500 ms — performed while `running` is already
`false` — recomputes `_tickElapsed` from the stale `_lastTick` (1000) and
adds it again: `trackedTime` jumps to 3000, not 1500. -/
theorem c2_double_pause_counterexample :
    (match run engEvery1 [Op.start 0, Op.tick 1000, Op.pause 1500, Op.pause 2500] with
     | .ok r => r.1.trackedTime = 3000 ∧ r.1.running = false
     | .error _ => False) ∧ (3000 : Nat) ≠ 1500 :=
  ⟨⟨rfl, rfl⟩, by decide⟩

/-- C5 (amended): on every scheduler tick, if the updated `trackedTime` is
below `min` the tick returns before evaluating marks (no event fires and the
fired set is untouched); if it is *strictly above* `max` the engine
self-destroys on that tick without evaluating marks, and this is terminal
for observable behaviour: that tick and every later scheduler tick emit no
event, and the fired set never changes again.  (At `trackedTime` exactly
equal to `max` the source uses a strict comparison and does evaluate marks;
see the counterexample.  If the destroying tick is the first after a
`start()`, the `_startTimer` wrapper re-arms a fresh `Interval`, so one more
tick can run — silently re-destroying — before the scheduler goes quiet.) -/
theorem c5_min_max_amended (s : Engine) (d lt M : Nat)
    (harm : s.intervalCleared = false)
    (hlt : s.lastTick = some lt) :
    (s.trackedTime + (d - lt) < s.minB →
      ∃ s', schedTick d s = .ok (s', []) ∧ s'.cache = s.cache ∧
        s'.trackedTime = s.trackedTime + (d - lt)) ∧
    (¬ s.trackedTime + (d - lt) < s.minB → s.maxB = some M →
      M < s.trackedTime + (d - lt) →
      ∃ s', schedTick d s = .ok (s', []) ∧ s'.cache = s.cache ∧
        ∀ ds : List Nat, ∃ s'', run s' (ds.map Op.tick) = .ok (s'', []) ∧
          s''.cache = s'.cache) := by
  constructor
  · intro hmin
    have htick : tick d s = .ok
        ({ s with trackedTime := s.trackedTime + (d - lt), lastTick := some d }, []) := by
      simp only [tick, hlt, Option.getD_some]
      rw [if_pos hmin]
    simp only [schedTick, harm, Bool.false_eq_true, if_false, htick]
    refine ⟨_, rfl, ?_, ?_⟩
    · split <;> rfl
    · split <;> rfl
  · intro hmin hmax hM
    have htick : tick d s = .ok
        (destroy { s with trackedTime := s.trackedTime + (d - lt), lastTick := some d },
         []) := by
      simp only [tick, hlt, Option.getD_some]
      rw [if_neg hmin]
      rw [if_pos]
      simp only [hmax, Option.any_some]
      exact decide_eq_true hM
    simp only [schedTick, harm, Bool.false_eq_true, if_false, htick]
    refine ⟨_, rfl, ?_, ?_⟩
    · split <;> rfl
    · intro ds
      have hfacts : ∀ s₁ : Engine, s₁.maxB = some M → M < s₁.trackedTime →
          s₁.minB ≤ s₁.trackedTime →
          ∃ s'', run s₁ (ds.map Op.tick) = .ok (s'', []) ∧ s''.cache = s₁.cache :=
        fun s₁ h1 h2 h3 => by
          obtain ⟨s'', hr, hc, _, _, _⟩ := run_ticks_after_max M ds s₁ h1 h2 h3
          exact ⟨s'', hr, hc⟩
      split
      · exact hfacts _ (by simpa [destroy] using hmax)
          (by simpa [destroy] using hM) (by simp [destroy]; omega)
      · exact hfacts _ (by simpa [destroy] using hmax)
          (by simpa [destroy] using hM) (by simp [destroy]; omega)

/-- Witness for C5 (amended): a started `{ every: [1], min: 10 }` engine
ticking at 5000 ms (below the 10000 ms minimum) emits nothing and caches
nothing; a started `{ every: [1], max: 2 }` engine ticking at 2001 ms
(above the 2000 ms maximum) emits nothing, and no later tick sequence emits
anything or grows the fired set. -/
theorem c5_min_max_witness :
    (∃ s', schedTick 5000 (start 0 engMin10).1 = .ok (s', []) ∧
      s'.cache = (start 0 engMin10).1.cache ∧
      s'.trackedTime = (start 0 engMin10).1.trackedTime + (5000 - 0)) ∧
    (∃ s', schedTick 2001 (start 0 engMax2).1 = .ok (s', []) ∧
      s'.cache = (start 0 engMax2).1.cache ∧
      ∀ ds : List Nat, ∃ s'', run s' (ds.map Op.tick) = .ok (s'', []) ∧
        s''.cache = s'.cache) :=
  ⟨(c5_min_max_amended (start 0 engMin10).1 5000 0 0 rfl rfl).1 (by decide),
   (c5_min_max_amended (start 0 engMax2).1 2001 0 2000 rfl rfl).2
     (by decide) rfl (by decide)⟩

/-- Counterexample for C5 as stated: with `max: 2`, a tick that lands on
`trackedTime` exactly 2000 ms (at the max, not above it) still evaluates
marks — it emits `interval 1` and `interval 2` — and does not destroy the
engine (`_tick` uses `this._trackedTime > this._max`, strictly). -/
theorem c5_at_max_counterexample :
    mkTimer 0 { every := some [1], max := some 2 } = .ok engMax2 ∧
    engMax2.maxB = some 2000 ∧
    (match run engMax2 [Op.start 0, Op.tick 2000] with
     | .ok r => r.1.trackedTime = 2000 ∧
         r.2 = [Event.start 0, Event.interval 1, Event.interval 2] ∧
         r.1.intervalCleared = false
     | .error _ => False) :=
  ⟨rfl, rfl, rfl, rfl, rfl⟩

/-- C1 (amended): for an engine started at `t0` (poll period 1000 ms, so the
scheduler ticks at `t0 + 1000`), pausing at `t0 + 1500` leaves
`trackedTime = 1500` with a 500 ms partial-tick remainder; 900 more
milliseconds elapsing while paused (even with a stray scheduler callback)
leave it at 1500; but after `start()` at `t0 + 2500`, the first tick 1 ms
later yields `trackedTime = 2001`, not 1501: `pause()` already added the
500 ms remainder and `start()` backdates `_lastTick` by it, so the
remainder is counted twice. -/
theorem c1_pause_resume_amended (t0 : Nat) :
    (match run engEvery1 [Op.start t0, Op.tick (t0 + 1000), Op.pause (t0 + 1500)] with
     | .ok r => r.1.trackedTime = 1500 ∧ r.1.tickElapsed = 500
     | .error _ => False) ∧
    (match run engEvery1 [Op.start t0, Op.tick (t0 + 1000), Op.pause (t0 + 1500),
        Op.tick (t0 + 2400)] with
     | .ok r => r.1.trackedTime = 1500
     | .error _ => False) ∧
    (match run engEvery1 [Op.start t0, Op.tick (t0 + 1000), Op.pause (t0 + 1500),
        Op.start (t0 + 2500), Op.tick (t0 + 2501)] with
     | .ok r => r.1.trackedTime = 2001
     | .error _ => False) := by
  have h1 : step (Op.start t0) engEvery1 =
      .ok ({ engEvery1 with
               running := true, intervalCleared := false,
               firstTick := true, lastTick := some t0 },
           [Event.start t0]) := by
    simp [step, start, engEvery1]
  have h2 : step (Op.tick (t0 + 1000))
      { engEvery1 with
          running := true, intervalCleared := false,
          firstTick := true, lastTick := some t0 } =
      .ok ({ engEvery1 with
               running := true, intervalCleared := false,
               firstTick := false, lastTick := some (t0 + 1000), trackedTime := 1000,
               everyMemo := [1], cache := [1] },
           [Event.interval 1]) := by
    simp [step, schedTick, tick, checkMarks, engEvery1, everyScan, everyStep,
      jsSort, List.insertionSort, List.orderedInsert, runMarks, checkMark,
      Nat.add_sub_cancel_left]
  have h3 : step (Op.pause (t0 + 1500))
      { engEvery1 with
          running := true, intervalCleared := false,
          firstTick := false, lastTick := some (t0 + 1000), trackedTime := 1000,
          everyMemo := [1], cache := [1] } =
      .ok ({ engEvery1 with
               running := false, intervalCleared := true,
               firstTick := false, lastTick := some (t0 + 1000), trackedTime := 1500,
               tickElapsed := 500, everyMemo := [1], cache := [1] },
           [Event.pause (t0 + 1500)]) := by
    simp [step, pause, engEvery1, Nat.add_sub_add_left]
  have h4 : step (Op.tick (t0 + 2400))
      { engEvery1 with
          running := false, intervalCleared := true,
          firstTick := false, lastTick := some (t0 + 1000), trackedTime := 1500,
          tickElapsed := 500, everyMemo := [1], cache := [1] } =
      .ok ({ engEvery1 with
               running := false, intervalCleared := true,
               firstTick := false, lastTick := some (t0 + 1000), trackedTime := 1500,
               tickElapsed := 500, everyMemo := [1], cache := [1] },
           []) := by
    simp [step, schedTick]
  have ha : t0 + 2500 - 500 = t0 + 2000 := by omega
  have h5 : step (Op.start (t0 + 2500))
      { engEvery1 with
          running := false, intervalCleared := true,
          firstTick := false, lastTick := some (t0 + 1000), trackedTime := 1500,
          tickElapsed := 500, everyMemo := [1], cache := [1] } =
      .ok ({ engEvery1 with
               running := true, intervalCleared := false,
               firstTick := true, lastTick := some (t0 + 2000), trackedTime := 1500,
               tickElapsed := 500, everyMemo := [1], cache := [1] },
           [Event.start (t0 + 2500)]) := by
    simp [step, start, engEvery1, ha]
  have h6 : step (Op.tick (t0 + 2501))
      { engEvery1 with
          running := true, intervalCleared := false,
          firstTick := true, lastTick := some (t0 + 2000), trackedTime := 1500,
          tickElapsed := 500, everyMemo := [1], cache := [1] } =
      .ok ({ engEvery1 with
               running := true, intervalCleared := false,
               firstTick := false, lastTick := some (t0 + 2501), trackedTime := 2001,
               tickElapsed := 0, everyMemo := [1], cache := [2, 1] },
           [Event.interval 2]) := by
    simp [step, schedTick, tick, checkMarks, engEvery1, everyScan, everyStep,
      jsSort, List.insertionSort, List.orderedInsert, runMarks, checkMark,
      Nat.add_sub_add_left]
  have r3 := run_cons_ok h1 (run_cons_ok h2 (run_cons_ok h3 (run_nil _)))
  have r4 := run_cons_ok h1 (run_cons_ok h2 (run_cons_ok h3 (run_cons_ok h4 (run_nil _))))
  have r5 := run_cons_ok h1 (run_cons_ok h2 (run_cons_ok h3 (run_cons_ok h5
    (run_cons_ok h6 (run_nil _)))))
  refine ⟨?_, ?_, ?_⟩
  · rw [r3]
    exact ⟨rfl, rfl⟩
  · rw [r4]
  · rw [r5]

/-- Counterexample for C1 as stated: in the concrete scenario (started at 0,
scheduler tick at 1000, pause at 1500, restart at 2500, tick at 2501) the
first tick after the restart yields `trackedTime = 2001`, not the claimed
1501 — the 500 ms fractional remainder is counted twice. -/
theorem c1_pause_resume_counterexample :
    (match run engEvery1 [Op.start 0, Op.tick 1000, Op.pause 1500,
        Op.start 2500, Op.tick 2501] with
     | .ok r => r.1.trackedTime = 2001
     | .error _ => False) ∧ (2001 : Nat) ≠ 1501 :=
  ⟨rfl, by decide⟩

/-- C7 (code bug): `destroy()` clears the `Interval`, but it calls
`clearTimeout(this._idleTimeout)` — a property that is never assigned —
while the pending idle handle lives in `this._idleTimer` (which `pause()`
cancels correctly).  So after `destroy()` the idle deadline is still
pending and still fires: it pauses the engine and emits `idle` (and even
advances `trackedTime`), contradicting the claim that `destroy()` disarms
the Idle Monitor unconditionally. -/
theorem c7_destroy_idle_timer_still_fires :
    (start 0 engIdle).1.idleTimer = some 1001 ∧
    (destroy (start 0 engIdle).1).idleTimer = some 1001 ∧
    (match run engIdle [Op.start 0, Op.destroy, Op.fireIdle] with
     | .ok r => r.2 = [Event.start 0, Event.pause 1001, Event.idle 1001] ∧
         r.1.running = false ∧ r.1.trackedTime = 1001
     | .error _ => False) :=
  ⟨rfl, rfl, rfl, rfl, rfl⟩

/-- C9 (amended): a first `reset()` does restore everything the claim lists
— `trackedTime` 0, empty fired set, `each`/`every` set to the original
cleaned configuration, `lastTick = now`, `running` unchanged — but `reset`
is not idempotent: the restored arrays no longer carry the `initialValues`
annotation, so a second `reset()` throws instead of succeeding. -/
theorem c9_reset_amended (d d' : Nat) (s : Engine) (ei vi : List Nat)
    (h1 : s.eachInitAnn = some ei) (h2 : s.everyInitAnn = some vi) :
    ∃ s', reset d s = .ok (s', [Event.reset d]) ∧
      s'.trackedTime = 0 ∧ s'.cache = [] ∧ s'.each = ei ∧ s'.everyMemo = vi ∧
      s'.lastTick = some d ∧ s'.running = s.running ∧
      ∀ r, reset d' s' ≠ .ok r := by
  simp only [reset, h1, h2]
  exact ⟨_, rfl, rfl, rfl, rfl, rfl, rfl, rfl,
    fun r hr => Except.noConfusion hr⟩

/-- Witness for C9 (amended) on the `{ every: [1] }` engine: the first
`reset()` at 1000 restores the state and the second at 1100 fails. -/
theorem c9_reset_amended_witness :
    ∃ s', reset 1000 engEvery1 = .ok (s', [Event.reset 1000]) ∧
      s'.trackedTime = 0 ∧ s'.cache = [] ∧ s'.each = [] ∧ s'.everyMemo = [1] ∧
      s'.lastTick = some 1000 ∧ s'.running = engEvery1.running ∧
      ∀ r, reset 1100 s' ≠ .ok r :=
  c9_reset_amended 1000 1100 engEvery1 [] [1] rfl rfl

/-- Counterexample for C9 as stated: the second `reset()` immediately after
the first does not succeed — the source reads
`this._each.initialValues.slice(0)` on a plain array, a `TypeError`. -/
theorem c9_second_reset_throws_counterexample :
    (match reset 1000 engEvery1 with
     | .ok r => r.1.trackedTime = 0 ∧ r.1.cache = [] ∧ r.1.each = [] ∧
         reset 1100 r.1 = .error "TypeError: this._each.initialValues is undefined"
     | .error _ => False) :=
  ⟨rfl, rfl, rfl, rfl⟩

end EngagementTimer
